import Mathlib

/-!
# Verification of the whiteboard scene, history and hit-testing model

A shallow embedding of `src/components/Whiteboard.tsx`: the element data
model, the snapshot-based undo/redo history (`saveToHistory`, `undo`,
`redo`), the hit test (`isWithinElement`), element creation and mutation
during drawing and dragging (`handleMouseDown`, `handleMouseMove`), and the
delete shortcut.

Conventions of the embedding:

* Canvas coordinates are JavaScript numbers; we model them over an arbitrary
  linear ordered commutative ring `α` (so the development instantiates at
  `ℤ`, `ℚ` and `ℝ`), with exact arithmetic.
* Optional object fields (`points?`, `width?`, `height?`, `radius?`) become
  `Option`; a JavaScript read `el.width || d` (which substitutes `d` both
  for an absent field and for the falsy number `0`) is `jsOrDefault`, while
  `el.width || 0` coincides with `Option.getD _ 0`.
* The comparisons `Math.sqrt s ≤ t` and `Math.sqrt s < t` (with `s` a sum of
  squares, hence nonnegative) are embedded by their exact real-arithmetic
  equivalents `0 ≤ t ∧ s ≤ t ^ 2` (`sqrtLe`) and `0 < t ∧ s < t ^ 2`
  (`sqrtLt`); squared Euclidean distance is `distSq`.
* `Math.sqrt` used to *produce* a value (the circle radius while drawing) is
  an opaque parameter `s : α → α` of `drawingUpdate`: no claim below depends
  on the numeric value it returns, only on which fields are present.
* `Array.prototype.slice(0, e)` is `jsSliceTo` (negative `e` counts from the
  end, results are clamped); an indexed read `a[i]` is `jsIndex`, returning
  `none` for the out-of-bounds `undefined`.
-/

namespace Whiteboard

/-- A 2D point in canvas-local pixel space (`interface Point`). -/
structure Point (α : Type) where
  x : α
  y : α
deriving DecidableEq

/-- `type Tool = 'select' | 'pen' | 'eraser' | 'rectangle' | 'circle' | 'line'`. -/
inductive Tool where
  | select
  | pen
  | eraser
  | rectangle
  | circle
  | line
deriving DecidableEq

/-- A drawable element (`interface Element`); optional fields are `Option`. -/
structure Element (α : Type) where
  id : String
  type : Tool
  points : Option (List (Point α)) := none
  x : α
  y : α
  width : Option α := none
  height : Option α := none
  radius : Option α := none
  color : String
  lineWidth : α
deriving DecidableEq

variable {α : Type} [LinearOrderedCommRing α]

/-- JavaScript `v || d` on an optional numeric field: `d` when the field is
absent or holds the falsy number `0`. -/
def jsOrDefault (v : Option α) (d : α) : α :=
  match v with
  | none => d
  | some a => if a = 0 then d else a

/-- Squared Euclidean distance, `Math.pow (x - cx) 2 + Math.pow (y - cy) 2`. -/
def distSq (x y cx cy : α) : α :=
  (x - cx) ^ 2 + (y - cy) ^ 2

/-- `Math.sqrt s ≤ t` for `s ≥ 0`, embedded without square roots: over the
reals, `Real.sqrt s ≤ t ↔ 0 ≤ t ∧ s ≤ t ^ 2` when `0 ≤ s`. -/
def sqrtLe (s t : α) : Bool :=
  decide (0 ≤ t) && decide (s ≤ t ^ 2)

/-- `Math.sqrt s < t` for `s ≥ 0`, embedded without square roots: over the
reals, `Real.sqrt s < t ↔ 0 < t ∧ s < t ^ 2` when `0 ≤ s`. -/
def sqrtLt (s t : α) : Bool :=
  decide (0 < t) && decide (s < t ^ 2)

/-- `isWithinElement(x, y, el)`: the generous hit test.  Mirrors the source:
`w`/`h` come from `Math.abs(el.width || 20)` (so a `0` or absent extent is
replaced by `20`), `minX`/`minY` normalize a negative extent, circles compare
Euclidean distance against `radius + 10`, freehand strokes look for a sampled
point strictly within `15`, and every other type uses the box test. -/
def isWithinElement (x y : α) (el : Element α) : Bool :=
  let w := |jsOrDefault el.width 20|
  let h := |jsOrDefault el.height 20|
  let minX := min el.x (el.x + el.width.getD 0)
  let minY := min el.y (el.y + el.height.getD 0)
  match el.type with
  | Tool.circle =>
      sqrtLe (distSq x y el.x el.y) (el.radius.getD 0 + 10)
  | Tool.pen =>
      (match el.points with
       | none => false
       | some ps => ps.any fun p => sqrtLt (distSq x y p.x p.y) 15)
  | Tool.eraser =>
      (match el.points with
       | none => false
       | some ps => ps.any fun p => sqrtLt (distSq x y p.x p.y) 15)
  | _ =>
      decide (x ≥ minX - 10) && decide (x ≤ minX + w + 10) &&
      decide (y ≥ minY - 10) && decide (y ≤ minY + h + 10)

/-- For each axis, the true half-extent `|field or 0|` is at most the
extent `|field or 20|` the hit test uses: the two differ only when the field
is absent or `0`, where the test substitutes `20`. -/
theorem abs_getD_le_abs_jsOrDefault (v : Option α) :
    |v.getD 0| ≤ |jsOrDefault v 20| := by
  match v with
  | none =>
      show |(0 : α)| ≤ |(20 : α)|
      rw [abs_zero, abs_of_nonneg (by norm_num : (0:α) ≤ 20)]
      norm_num
  | some a =>
      by_cases h : a = 0
      · subst h
        have h20 : jsOrDefault (some (0 : α)) 20 = 20 := by simp [jsOrDefault]
        show |Option.getD (some (0 : α)) 0| ≤ |jsOrDefault (some (0 : α)) 20|
        rw [h20, Option.getD_some, abs_zero,
          abs_of_nonneg (by norm_num : (0:α) ≤ 20)]
        norm_num
      · have ha : jsOrDefault (some a) 20 = a := by simp [jsOrDefault, h]
        show |Option.getD (some a) 0| ≤ |jsOrDefault (some a) 20|
        rw [ha, Option.getD_some]

/-- Claim C6: for every circle element with a nonnegative radius `r`, the hit
test succeeds exactly when the Euclidean distance from the pointer to the
center is at most `r + 10` (stated squared: `distSq ≤ (r + 10) ^ 2`, the
exact rendering of `Math.sqrt distSq ≤ r + 10`); in particular the pointer at
distance exactly `r + 10` along the x-axis is a hit, and at `r + 11` a miss. -/
theorem claim_C6 (el : Element α) (r x y : α)
    (htype : el.type = Tool.circle) (hrad : el.radius = some r) (hr : 0 ≤ r) :
    (isWithinElement x y el = true ↔ distSq x y el.x el.y ≤ (r + 10) ^ 2) ∧
    isWithinElement (el.x + (r + 10)) el.y el = true ∧
    isWithinElement (el.x + (r + 11)) el.y el = false := by
  have h10 : (0 : α) ≤ r + 10 := add_nonneg hr (by norm_num)
  refine ⟨?_, ?_, ?_⟩
  · simp only [isWithinElement, htype, hrad, Option.getD_some, sqrtLe,
      Bool.and_eq_true, decide_eq_true_eq]
    exact and_iff_right h10
  · simp only [isWithinElement, htype, hrad, Option.getD_some, sqrtLe,
      Bool.and_eq_true, decide_eq_true_eq]
    refine ⟨h10, le_of_eq ?_⟩
    simp only [distSq]
    ring
  · have hgt : (r + 10) ^ 2 < (r + 11) ^ 2 := by
      have hlt : r + 10 < r + 11 := by
        have : (10 : α) < 11 := by norm_num
        exact add_lt_add_left this r
      exact pow_lt_pow_left₀ hlt h10 two_ne_zero
    have hd : distSq (el.x + (r + 11)) el.y el.x el.y = (r + 11) ^ 2 := by
      simp only [distSq]
      ring
    simp only [isWithinElement, htype, hrad, Option.getD_some, sqrtLe, hd]
    simp [not_le.mpr hgt]

/-- A concrete circle element over `ℤ`: center `(0,0)`, radius `5`. -/
def circEx : Element ℤ :=
  { id := "c1", type := Tool.circle, x := 0, y := 0, radius := some 5,
    color := "blue", lineWidth := 1 }

/-- Witness for C6 at the circle of radius `5`: the pointer at distance `15`
hits and at distance `16` misses. -/
theorem claim_C6_witness :
    isWithinElement (0 + ((5 : ℤ) + 10)) 0 circEx = true ∧
    isWithinElement (0 + ((5 : ℤ) + 11)) 0 circEx = false := by
  have h := claim_C6 circEx 5 0 0 rfl rfl (by decide)
  exact ⟨h.2.1, h.2.2⟩

/-- Claim C7 (amended): for a rectangle or line element, the hit test
succeeds exactly when the pointer lies in the normalized box extended by
`10` beyond `minX`/`minY` and by `|width or 20| + 10` (resp. height) beyond
them — i.e. an absent or zero extent is replaced by `20`, not `0`; and the
claimed no-false-negative guarantee holds: any pointer inside the true
bounding box expanded by `10` on each side is a hit. -/
theorem claim_C7 (el : Element α) (x y : α)
    (htype : el.type = Tool.rectangle ∨ el.type = Tool.line) :
    (isWithinElement x y el = true ↔
      (min el.x (el.x + el.width.getD 0) - 10 ≤ x ∧
       x ≤ min el.x (el.x + el.width.getD 0) + |jsOrDefault el.width 20| + 10 ∧
       min el.y (el.y + el.height.getD 0) - 10 ≤ y ∧
       y ≤ min el.y (el.y + el.height.getD 0) + |jsOrDefault el.height 20| + 10)) ∧
    ((min el.x (el.x + el.width.getD 0) - 10 ≤ x ∧
      x ≤ min el.x (el.x + el.width.getD 0) + |el.width.getD 0| + 10 ∧
      min el.y (el.y + el.height.getD 0) - 10 ≤ y ∧
      y ≤ min el.y (el.y + el.height.getD 0) + |el.height.getD 0| + 10) →
     isWithinElement x y el = true) := by
  have hiff : isWithinElement x y el = true ↔
      (min el.x (el.x + el.width.getD 0) - 10 ≤ x ∧
       x ≤ min el.x (el.x + el.width.getD 0) + |jsOrDefault el.width 20| + 10 ∧
       min el.y (el.y + el.height.getD 0) - 10 ≤ y ∧
       y ≤ min el.y (el.y + el.height.getD 0) + |jsOrDefault el.height 20| + 10) := by
    rcases htype with h | h <;>
      simp only [isWithinElement, h, Bool.and_eq_true, decide_eq_true_eq,
        ge_iff_le, and_assoc]
  refine ⟨hiff, fun hbox => hiff.mpr ?_⟩
  obtain ⟨h1, h2, h3, h4⟩ := hbox
  refine ⟨h1, ?_, h3, ?_⟩
  · calc x ≤ min el.x (el.x + el.width.getD 0) + |el.width.getD 0| + 10 := h2
      _ ≤ min el.x (el.x + el.width.getD 0) + |jsOrDefault el.width 20| + 10 := by
          have := abs_getD_le_abs_jsOrDefault el.width
          gcongr
  · calc y ≤ min el.y (el.y + el.height.getD 0) + |el.height.getD 0| + 10 := h4
      _ ≤ min el.y (el.y + el.height.getD 0) + |jsOrDefault el.height 20| + 10 := by
          have := abs_getD_le_abs_jsOrDefault el.height
          gcongr

/-- A perfectly horizontal line over `ℤ`: from `(0,0)` to `(100,0)`, so its
bounding box has zero height. -/
def lineEx : Element ℤ :=
  { id := "l1", type := Tool.line, x := 0, y := 0, width := some 100,
    height := some 0, color := "blue", lineWidth := 1 }

/-- Counterexample to C7 as stated: on the horizontal line `lineEx`, the
pointer `(50, 25)` is a hit although its `y` lies outside the bounding box
expanded by `10` on each side (`25 > minY + |height| + 10 = 10`): the code
substitutes `20` for the zero height, stretching the box downwards. -/
theorem claim_C7_cex :
    isWithinElement (50 : ℤ) 25 lineEx = true ∧
    ¬ ((25 : ℤ) ≤ min lineEx.y (lineEx.y + lineEx.height.getD 0) +
        |lineEx.height.getD 0| + 10) := by decide

/-- A concrete rectangle over `ℤ` with positive extents `4 × 6`. -/
def rectEx : Element ℤ :=
  { id := "r1", type := Tool.rectangle, x := 0, y := 0, width := some 4,
    height := some 6, color := "blue", lineWidth := 1 }

/-- Witness for C7 at the `4 × 6` rectangle: an interior pointer is a hit. -/
theorem claim_C7_witness : isWithinElement (2 : ℤ) 3 rectEx = true :=
  (claim_C7 rectEx 2 3 (Or.inl rfl)).2 (by decide)

/-- Claim C8 (amended): for a pen or eraser element, the hit test succeeds
exactly when some sampled point of the path is strictly within `15` of the
pointer (`distSq < 15 ^ 2`, the exact rendering of `Math.sqrt distSq < 15`);
a pointer at distance exactly `15` from every sampled point and no closer to
any is a miss, and an element without a path never hits. -/
theorem claim_C8 (el : Element α) (x y : α)
    (htype : el.type = Tool.pen ∨ el.type = Tool.eraser) :
    (el.points = none → isWithinElement x y el = false) ∧
    (∀ ps, el.points = some ps →
      (isWithinElement x y el = true ↔
        ∃ p ∈ ps, distSq x y p.x p.y < 15 ^ 2)) ∧
    (∀ ps, el.points = some ps →
      (∀ q ∈ ps, 15 ^ 2 ≤ distSq x y q.x q.y) →
      isWithinElement x y el = false) := by
  have h15 : (0 : α) < 15 := by norm_num
  have hnone : el.points = none → isWithinElement x y el = false := by
    intro hp
    rcases htype with h | h <;> simp [isWithinElement, h, hp]
  have hsome : ∀ ps, el.points = some ps →
      (isWithinElement x y el = true ↔
        ∃ p ∈ ps, distSq x y p.x p.y < 15 ^ 2) := by
    intro ps hp
    rcases htype with h | h <;>
      simp [isWithinElement, h, hp, sqrtLt, List.any_eq_true, h15]
  refine ⟨hnone, hsome, fun ps hp hall => ?_⟩
  rw [Bool.eq_false_iff]
  intro htrue
  obtain ⟨p, hmem, hlt⟩ := (hsome ps hp).mp htrue
  exact absurd (hall p hmem) (not_le.mpr hlt)

/-- A concrete one-point pen stroke over `ℤ`: a single sample at `(0,0)`. -/
def penEx : Element ℤ :=
  { id := "p1", type := Tool.pen, points := some [{ x := 0, y := 0 }],
    x := 0, y := 0, color := "blue", lineWidth := 1 }

/-- Counterexample to C8 as stated: on the one-point stroke `penEx`, the
pointer `(15, 0)` is at distance exactly `15` from the nearest sampled point
yet the hit test fails — the code compares with strict `< 15`. -/
theorem claim_C8_cex :
    isWithinElement (15 : ℤ) 0 penEx = false ∧
    distSq (15 : ℤ) 0 0 0 = 15 ^ 2 := by decide

/-- Witness for C8 at the one-point stroke: a pointer strictly within `15`
(distance `14`) is a hit. -/
theorem claim_C8_witness : isWithinElement (14 : ℤ) 0 penEx = true :=
  ((claim_C8 penEx 14 0 (Or.inl rfl)).2.1 [{ x := 0, y := 0 }] rfl).mpr
    ⟨{ x := 0, y := 0 }, by decide, by decide⟩

/-- JavaScript `Array.prototype.slice(0, e)`: a negative `e` counts from the
end of the array, and the result is clamped to the array. -/
def jsSliceTo {γ : Type} (l : List γ) (e : Int) : List γ :=
  if e < 0 then l.take ((l.length : Int) + e).toNat else l.take e.toNat

/-- A JavaScript indexed read `a[i]`: `none` models the `undefined` produced
by an out-of-bounds index. -/
def jsIndex {γ : Type} (l : List γ) (i : Int) : Option γ :=
  if 0 ≤ i then l[i.toNat]? else none

/-- The component state the history claims are about: the live scene
`elements`, the snapshot list `history`, the cursor `historyIndex` (an
integer, `-1` denoting the empty initial scene) and the current selection. -/
structure WBState (α : Type) where
  elements : List (Element α)
  history : List (List (Element α))
  historyIndex : Int
  selectedId : Option String
deriving DecidableEq

/-- The initial state: `useState([])`, `useState([])`, `useState(-1)`,
`useState(null)`. -/
def initState {α : Type} : WBState α :=
  { elements := [], history := [], historyIndex := -1, selectedId := none }

/-- `saveToHistory(newElements)`: truncate the history after the cursor,
push a copy of the new scene, and point the cursor at the new last entry. -/
def saveToHistory {α : Type} (st : WBState α) (newElements : List (Element α)) :
    WBState α :=
  let newHistory := jsSliceTo st.history (st.historyIndex + 1) ++ [newElements]
  { st with history := newHistory,
            historyIndex := (newHistory.length : Int) - 1 }

/-- `undo()`: move the cursor back and restore that snapshot (clearing the
selection); from cursor `0` restore the empty scene at cursor `-1`; below
that, do nothing. -/
def undo {α : Type} (st : WBState α) : WBState α :=
  if st.historyIndex > 0 then
    let prevIndex := st.historyIndex - 1
    { st with historyIndex := prevIndex,
              elements := (jsIndex st.history prevIndex).getD [],
              selectedId := none }
  else if st.historyIndex = 0 then
    { st with historyIndex := -1, elements := [], selectedId := none }
  else st

/-- `redo()`: while the cursor is strictly before the last entry, advance it
and restore that snapshot; otherwise do nothing (the selection is kept). -/
def redo {α : Type} (st : WBState α) : WBState α :=
  if st.historyIndex < (st.history.length : Int) - 1 then
    let nextIndex := st.historyIndex + 1
    { st with historyIndex := nextIndex,
              elements := (jsIndex st.history nextIndex).getD [] }
  else st

/-- The delete/backspace shortcut: with a selection, filter the selected id
out of the scene, commit the result, and clear the selection; without one,
do nothing. -/
def handleDelete {α : Type} (st : WBState α) : WBState α :=
  match st.selectedId with
  | none => st
  | some sid =>
      let newElements := st.elements.filter fun el => el.id != sid
      let st1 := saveToHistory { st with elements := newElements } newElements
      { st1 with selectedId := none }

/-- The commit-level operations the history claims quantify over: committing
a finished scene (`setElements` plus `saveToHistory`, as the pointer-up,
delete and clear handlers do), undo, and redo. -/
inductive UserOp (α : Type) where
  | commit (scene : List (Element α))
  | undoOp
  | redoOp

/-- One commit/undo/redo step on the component state. -/
def applyOp {α : Type} (st : WBState α) : UserOp α → WBState α
  | UserOp.commit sc => saveToHistory { st with elements := sc } sc
  | UserOp.undoOp => undo st
  | UserOp.redoOp => redo st

/-- The state after a sequence of operations from the initial state. -/
def runOps {α : Type} (ops : List (UserOp α)) : WBState α :=
  ops.foldl applyOp initState

/-- The reachable-state invariant: the cursor stays within
`-1 … history.length - 1`, and whenever it is nonnegative it points at a
snapshot equal to the live scene. -/
def StateOK {α : Type} (st : WBState α) : Prop :=
  -1 ≤ st.historyIndex ∧
  st.historyIndex ≤ (st.history.length : Int) - 1 ∧
  (0 ≤ st.historyIndex → jsIndex st.history st.historyIndex = some st.elements)

/-- An in-bounds `jsIndex` read yields a value. -/
theorem jsIndex_isSome_of_lt {γ : Type} (l : List γ) (i : Int)
    (h0 : 0 ≤ i) (hl : i < (l.length : Int)) : ∃ a, jsIndex l i = some a := by
  have hn : i.toNat < l.length := by omega
  refine ⟨l[i.toNat], ?_⟩
  rw [jsIndex, if_pos h0, List.getElem?_eq_getElem hn]

/-- Reading an appended singleton at the length of the front part. -/
theorem getElem?_append_singleton {γ : Type} (l : List γ) (a : γ) (n : ℕ)
    (h : n = l.length) : (l ++ [a])[n]? = some a := by
  subst h
  exact List.getElem?_concat_length l a

/-- The last entry read through `jsIndex` is the `getLastD` of the list. -/
theorem jsIndex_last {γ : Type} (l : List γ) (d : γ) (h : l ≠ []) :
    (jsIndex l ((l.length : Int) - 1)).getD d = l.getLastD d := by
  have hlen : 0 < l.length := List.length_pos.mpr h
  rw [jsIndex, if_pos (by omega)]
  have ht : ((l.length : Int) - 1).toNat = l.length - 1 := by omega
  rw [ht, ← List.getLast?_eq_getElem?, List.getLastD_eq_getLast?]

/-- What one `saveToHistory` call does from any in-bounds state: the kept
prefix, the new length, cursor and top entry, and the untouched fields. -/
theorem saveToHistory_core {α : Type} (st : WBState α)
    (sc : List (Element α)) (h0 : -1 ≤ st.historyIndex)
    (h1 : st.historyIndex ≤ (st.history.length : Int) - 1) :
    (saveToHistory st sc).history
        = st.history.take (st.historyIndex + 1).toNat ++ [sc] ∧
    ((saveToHistory st sc).history.length : Int) = st.historyIndex + 2 ∧
    (saveToHistory st sc).historyIndex = st.historyIndex + 1 ∧
    (saveToHistory st sc).elements = st.elements ∧
    (saveToHistory st sc).selectedId = st.selectedId ∧
    jsIndex (saveToHistory st sc).history (st.historyIndex + 1) = some sc ∧
    (∀ i : Int, 0 ≤ i → i ≤ st.historyIndex →
      jsIndex (saveToHistory st sc).history i = jsIndex st.history i) := by
  have hkle : (st.historyIndex + 1).toNat ≤ st.history.length := by omega
  have hslice : jsSliceTo st.history (st.historyIndex + 1)
      = st.history.take (st.historyIndex + 1).toNat := by
    rw [jsSliceTo, if_neg (by omega : ¬ (st.historyIndex + 1 < 0))]
  have hhist : (saveToHistory st sc).history
      = st.history.take (st.historyIndex + 1).toNat ++ [sc] := by
    simp only [saveToHistory, hslice]
  have htlen : (st.history.take (st.historyIndex + 1).toNat).length
      = (st.historyIndex + 1).toNat := by
    rw [List.length_take]
    omega
  have hlen2 : ((saveToHistory st sc).history.length : Int)
      = st.historyIndex + 2 := by
    rw [hhist]
    simp only [List.length_append, htlen, List.length_cons, List.length_nil]
    omega
  have hidx0 : (saveToHistory st sc).historyIndex
      = ((saveToHistory st sc).history.length : Int) - 1 := rfl
  have hidx : (saveToHistory st sc).historyIndex = st.historyIndex + 1 := by
    omega
  refine ⟨hhist, hlen2, hidx, rfl, rfl, ?_, ?_⟩
  · rw [hhist, jsIndex, if_pos (by omega : (0:Int) ≤ st.historyIndex + 1)]
    exact getElem?_append_singleton _ sc _ htlen.symm
  · intro i hi0 hii
    rw [hhist, jsIndex, jsIndex, if_pos hi0, if_pos hi0]
    rw [List.getElem?_append, if_pos (by rw [htlen]; omega)]
    rw [List.getElem?_take, if_pos (by omega : i.toNat < (st.historyIndex + 1).toNat)]

/-- `undo` below the initial cursor is the identity. -/
theorem undo_neg {α : Type} (st : WBState α) (h : st.historyIndex < 0) :
    undo st = st := by
  rw [undo, if_neg (by omega), if_neg (by omega)]

/-- `undo` at cursor `0` restores the empty initial scene at cursor `-1`. -/
theorem undo_zero {α : Type} (st : WBState α) (h : st.historyIndex = 0) :
    undo st = { st with historyIndex := -1, elements := [],
                        selectedId := none } := by
  rw [undo, if_neg (by omega), if_pos h]

/-- `undo` at a positive cursor steps back one snapshot. -/
theorem undo_pos {α : Type} (st : WBState α) (h : 0 < st.historyIndex) :
    undo st = { st with historyIndex := st.historyIndex - 1,
                        elements := (jsIndex st.history
                          (st.historyIndex - 1)).getD [],
                        selectedId := none } := by
  rw [undo, if_pos h]

/-- `redo` strictly before the last entry advances one snapshot. -/
theorem redo_lt {α : Type} (st : WBState α)
    (h : st.historyIndex < (st.history.length : Int) - 1) :
    redo st = { st with historyIndex := st.historyIndex + 1,
                        elements := (jsIndex st.history
                          (st.historyIndex + 1)).getD [] } := by
  rw [redo, if_pos h]

/-- `redo` at (or past) the last entry is the identity. -/
theorem redo_ge {α : Type} (st : WBState α)
    (h : ¬ st.historyIndex < (st.history.length : Int) - 1) :
    redo st = st := by
  rw [redo, if_neg h]

/-- Every commit/undo/redo step preserves the reachable-state invariant. -/
theorem stateOK_applyOp {α : Type} (st : WBState α) (op : UserOp α)
    (h : StateOK st) : StateOK (applyOp st op) := by
  obtain ⟨h0, h1, h2⟩ := h
  cases op with
  | commit sc =>
      show StateOK (saveToHistory { st with elements := sc } sc)
      obtain ⟨hh, hl, hi, he, hs, htop, hpre⟩ :=
        saveToHistory_core { st with elements := sc } sc h0 h1
      dsimp only at hl hi he htop
      refine ⟨by omega, by omega, fun _ => ?_⟩
      rw [hi, he, htop]
  | undoOp =>
      show StateOK (undo st)
      by_cases hpos : 0 < st.historyIndex
      · obtain ⟨a, ha⟩ := jsIndex_isSome_of_lt st.history (st.historyIndex - 1)
          (by omega) (by omega)
        rw [undo_pos st hpos]
        refine ⟨by dsimp only; omega, by dsimp only; omega, fun _ => ?_⟩
        dsimp only
        simp only [ha, Option.getD_some]
      · by_cases hz : st.historyIndex = 0
        · rw [undo_zero st hz]
          refine ⟨by dsimp only; omega, by dsimp only; omega, fun hc => ?_⟩
          dsimp only at hc
          exact absurd hc (by omega)
        · rw [undo_neg st (by omega)]
          exact ⟨h0, h1, h2⟩
  | redoOp =>
      show StateOK (redo st)
      by_cases hlt : st.historyIndex < (st.history.length : Int) - 1
      · obtain ⟨a, ha⟩ := jsIndex_isSome_of_lt st.history (st.historyIndex + 1)
          (by omega) (by omega)
        rw [redo_lt st hlt]
        refine ⟨by dsimp only; omega, by dsimp only; omega, fun _ => ?_⟩
        dsimp only
        simp only [ha, Option.getD_some]
      · rw [redo_ge st hlt]
        exact ⟨h0, h1, h2⟩

/-- The invariant holds along any run of operations. -/
theorem stateOK_foldl {α : Type} (ops : List (UserOp α)) :
    ∀ st : WBState α, StateOK st → StateOK (ops.foldl applyOp st) := by
  induction ops with
  | nil => exact fun st h => h
  | cons op rest ih => exact fun st h => ih _ (stateOK_applyOp st op h)

/-- The initial state satisfies the invariant. -/
theorem stateOK_init {α : Type} : StateOK (initState : WBState α) := by
  unfold StateOK initState
  refine ⟨by norm_num, by norm_num, fun hc => ?_⟩
  norm_num at hc

/-- Every state reached from the initial state satisfies the invariant. -/
theorem stateOK_runOps {α : Type} (ops : List (UserOp α)) :
    StateOK (runOps ops) :=
  stateOK_foldl ops initState stateOK_init

/-- Claim C10: starting from the initial state (empty history, cursor `-1`),
after any sequence of commit (`saveToHistory`), `undo` and `redo` operations
the cursor satisfies `-1 ≤ historyIndex ≤ history.length - 1`, and each
history read those operations can perform — `history[historyIndex - 1]` in
`undo` when the cursor is positive, `history[historyIndex + 1]` in `redo`
when the cursor is before the end — is in bounds (the read yields a value,
never `undefined`). -/
theorem claim_C10 {α : Type} (ops : List (UserOp α)) :
    (-1 ≤ (runOps ops).historyIndex ∧
      (runOps ops).historyIndex ≤ ((runOps ops).history.length : Int) - 1) ∧
    (0 < (runOps ops).historyIndex →
      (jsIndex (runOps ops).history
        ((runOps ops).historyIndex - 1)).isSome = true) ∧
    ((runOps ops).historyIndex < ((runOps ops).history.length : Int) - 1 →
      (jsIndex (runOps ops).history
        ((runOps ops).historyIndex + 1)).isSome = true) := by
  obtain ⟨h0, h1, h2⟩ := stateOK_runOps ops
  refine ⟨⟨h0, h1⟩, fun hpos => ?_, fun hlt => ?_⟩
  · obtain ⟨a, ha⟩ := jsIndex_isSome_of_lt (runOps ops).history
      ((runOps ops).historyIndex - 1) (by omega) (by omega)
    rw [ha]
    rfl
  · obtain ⟨a, ha⟩ := jsIndex_isSome_of_lt (runOps ops).history
      ((runOps ops).historyIndex + 1) (by omega) (by omega)
    rw [ha]
    rfl

/-- Claim C2: committing a new scene while the cursor is strictly behind the
history end keeps exactly the entries at indices `0 … historyIndex` (the new
length is `historyIndex + 2`, so everything strictly after the cursor is
discarded), appends the new scene as the last entry, and moves the cursor to
that last entry. -/
theorem claim_C2 {α : Type} (st : WBState α) (sc : List (Element α))
    (h0 : -1 ≤ st.historyIndex)
    (h1 : st.historyIndex < (st.history.length : Int) - 1) :
    ((saveToHistory st sc).history.length : Int) = st.historyIndex + 2 ∧
    (∀ i : Int, 0 ≤ i → i ≤ st.historyIndex →
      jsIndex (saveToHistory st sc).history i = jsIndex st.history i) ∧
    (saveToHistory st sc).historyIndex = st.historyIndex + 1 ∧
    (saveToHistory st sc).historyIndex
      = ((saveToHistory st sc).history.length : Int) - 1 ∧
    jsIndex (saveToHistory st sc).history (saveToHistory st sc).historyIndex
      = some sc := by
  obtain ⟨hh, hl, hi, he, hs, htop, hpre⟩ :=
    saveToHistory_core st sc h0 (by omega)
  refine ⟨hl, hpre, hi, by omega, ?_⟩
  rw [hi]
  exact htop

/-- Witness state for C2: three committed snapshots with the cursor rewound
to the first. -/
def stEx : WBState ℤ :=
  { elements := [], history := [[], [], []], historyIndex := 0,
    selectedId := none }

/-- Witness for C2 at `stEx`: the commit lands at cursor `1` and the new
history has exactly two entries (`historyIndex + 2`), so the two entries
after the old cursor were discarded. -/
theorem claim_C2_witness :
    ((saveToHistory stEx []).history.length : Int) = 0 + 2 ∧
    (saveToHistory stEx []).historyIndex = 0 + 1 :=
  ⟨(claim_C2 stEx [] (by decide) (by decide)).1,
    (claim_C2 stEx [] (by decide) (by decide)).2.2.1⟩

/-- Claim C3: `undo` at cursor `-1` changes nothing; `redo` with the cursor
at the last entry changes nothing; `undo` at cursor `0` rewinds to `-1` and
the empty scene; `undo` at a positive cursor steps the cursor back one and
restores that snapshot as the live scene — in both cases clearing the
selection. -/
theorem claim_C3 {α : Type} (st : WBState α) :
    (st.historyIndex = -1 → undo st = st) ∧
    (st.historyIndex = (st.history.length : Int) - 1 → redo st = st) ∧
    (st.historyIndex = 0 →
      undo st = { st with historyIndex := -1, elements := [],
                          selectedId := none }) ∧
    (0 < st.historyIndex →
      (undo st).historyIndex = st.historyIndex - 1 ∧
      (undo st).history = st.history ∧
      (undo st).selectedId = none ∧
      ∀ snap, jsIndex st.history (st.historyIndex - 1) = some snap →
        (undo st).elements = snap) := by
  refine ⟨fun h => undo_neg st (by omega), fun h => redo_ge st (by omega),
    fun h => undo_zero st h, fun h => ?_⟩
  rw [undo_pos st h]
  refine ⟨rfl, rfl, rfl, fun snap hsnap => ?_⟩
  show (jsIndex st.history (st.historyIndex - 1)).getD [] = snap
  rw [hsnap]
  rfl

/-- Locally, on any invariant-satisfying state where `undo` applies
(cursor `≥ 0`), `undo` then `redo` restores elements, history and cursor,
leaving only the selection cleared. -/
theorem undo_redo_roundtrip {α : Type} (st : WBState α) (hOK : StateOK st)
    (hge : 0 ≤ st.historyIndex) :
    (redo (undo st)).elements = st.elements ∧
    (redo (undo st)).history = st.history ∧
    (redo (undo st)).historyIndex = st.historyIndex ∧
    (redo (undo st)).selectedId = none := by
  obtain ⟨h0, h1, h2⟩ := hOK
  have hsel := h2 hge
  have hui : (undo st).historyIndex = st.historyIndex - 1 := by
    by_cases hz : st.historyIndex = 0
    · rw [undo_zero st hz]
      dsimp only
      omega
    · rw [undo_pos st (by omega)]
  have huh : (undo st).history = st.history := by
    by_cases hz : st.historyIndex = 0
    · rw [undo_zero st hz]
    · rw [undo_pos st (by omega)]
  have hus : (undo st).selectedId = none := by
    by_cases hz : st.historyIndex = 0
    · rw [undo_zero st hz]
    · rw [undo_pos st (by omega)]
  have hlt : (undo st).historyIndex < ((undo st).history.length : Int) - 1 := by
    rw [hui, huh]
    omega
  have hr := redo_lt (undo st) hlt
  refine ⟨?_, by rw [hr]; dsimp only; exact huh,
    by rw [hr]; dsimp only; omega, by rw [hr]; dsimp only; exact hus⟩
  rw [hr]
  dsimp only
  rw [huh, hui, show st.historyIndex - 1 + 1 = st.historyIndex from by ring,
    hsel]
  rfl

/-- Running a list of commits from a state whose cursor sits at the history
end appends the scenes in order, leaves the cursor at the new end, and
leaves the last committed scene live. -/
theorem commits_foldl {α : Type} (scenes : List (List (Element α))) :
    ∀ st : WBState α,
      st.historyIndex = (st.history.length : Int) - 1 →
      -1 ≤ st.historyIndex →
      ((scenes.map UserOp.commit).foldl applyOp st).history
          = st.history ++ scenes ∧
      ((scenes.map UserOp.commit).foldl applyOp st).historyIndex
          = (st.history.length : Int) + scenes.length - 1 ∧
      ((scenes.map UserOp.commit).foldl applyOp st).elements
          = scenes.getLastD st.elements := by
  induction scenes with
  | nil =>
      intro st h1 h2
      refine ⟨by simp, ?_, rfl⟩
      show st.historyIndex = (st.history.length : Int) + ((0:ℕ) : Int) - 1
      omega
  | cons sc rest ih =>
      intro st h1 h2
      obtain ⟨hh, hl, hi, he, hs, htop, hpre⟩ :=
        saveToHistory_core { st with elements := sc } sc h2 (le_of_eq h1)
      dsimp only at hh hl hi he
      set st1 := saveToHistory { st with elements := sc } sc with hst1
      have htake : st.history.take (st.historyIndex + 1).toNat = st.history := by
        rw [show (st.historyIndex + 1).toNat = st.history.length from by omega]
        exact List.take_length st.history
      have hh1 : st1.history = st.history ++ [sc] := by rw [hh, htake]
      have hfold : ((sc :: rest).map UserOp.commit).foldl applyOp st
          = (rest.map UserOp.commit).foldl applyOp st1 := rfl
      rw [hfold]
      have hcond1 : st1.historyIndex = (st1.history.length : Int) - 1 := by
        rw [hh1, hi]
        simp only [List.length_append, List.length_cons, List.length_nil]
        push_cast
        omega
      have hcond2 : -1 ≤ st1.historyIndex := by omega
      obtain ⟨ph, pi, pe⟩ := ih st1 hcond1 hcond2
      refine ⟨?_, ?_, ?_⟩
      · rw [ph, hh1, List.append_assoc]
        rfl
      · rw [pi, hh1]
        simp only [List.length_append, List.length_cons, List.length_nil]
        push_cast
        omega
      · rw [pe, he]
        exact (List.getLastD_cons st.elements sc rest).symm

/-- `undo` iterated from cursor `n - 1` rewinds all the way to `-1`,
leaving the history untouched; when at least one step is taken the live
scene is empty and the selection cleared. -/
theorem undo_iter {α : Type} (n : ℕ) :
    ∀ st : WBState α, st.historyIndex = (n : Int) - 1 →
      (undo^[n] st).history = st.history ∧
      (undo^[n] st).historyIndex = -1 ∧
      (n ≠ 0 → (undo^[n] st).elements = [] ∧
        (undo^[n] st).selectedId = none) := by
  induction n with
  | zero =>
      intro st h
      refine ⟨rfl, ?_, fun hc => absurd rfl hc⟩
      show st.historyIndex = -1
      omega
  | succ m ih =>
      intro st h
      rw [Function.iterate_succ_apply]
      by_cases hm : m = 0
      · subst hm
        have hz : st.historyIndex = 0 := by omega
        rw [undo_zero st hz]
        exact ⟨rfl, rfl, fun _ => ⟨rfl, rfl⟩⟩
      · have hpos : 0 < st.historyIndex := by omega
        have hu := undo_pos st hpos
        have h1 : (undo st).historyIndex = (m : Int) - 1 := by
          rw [hu]
          dsimp only
          omega
        obtain ⟨ph, pi, pe⟩ := ih (undo st) h1
        refine ⟨?_, pi, fun _ => pe hm⟩
        rw [ph, hu]

/-- `redo` iterated `n` steps within bounds advances the cursor by `n`,
keeps history and selection, and (once at least one step is taken) loads the
snapshot at the final cursor. -/
theorem redo_iter {α : Type} (n : ℕ) :
    ∀ st : WBState α,
      st.historyIndex + n ≤ (st.history.length : Int) - 1 →
      (redo^[n] st).history = st.history ∧
      (redo^[n] st).historyIndex = st.historyIndex + n ∧
      (redo^[n] st).selectedId = st.selectedId ∧
      (n ≠ 0 → (redo^[n] st).elements
        = (jsIndex st.history (st.historyIndex + n)).getD []) := by
  induction n with
  | zero =>
      intro st h
      refine ⟨rfl, by simp, rfl, fun hc => absurd rfl hc⟩
  | succ m ih =>
      intro st h
      rw [Function.iterate_succ_apply]
      have hlt : st.historyIndex < (st.history.length : Int) - 1 := by
        have : (1 : Int) ≤ ((m + 1 : ℕ) : Int) := by push_cast; omega
        omega
      have hr := redo_lt st hlt
      have hri : (redo st).historyIndex = st.historyIndex + 1 := by
        rw [hr]
      have hrh : (redo st).history = st.history := by
        rw [hr]
      have hrs : (redo st).selectedId = st.selectedId := by
        rw [hr]
      have hre : (redo st).elements
          = (jsIndex st.history (st.historyIndex + 1)).getD [] := by
        rw [hr]
      have h1 : (redo st).historyIndex + (m : Int)
          ≤ ((redo st).history.length : Int) - 1 := by
        rw [hri, hrh]
        have : ((m + 1 : ℕ) : Int) = (m : Int) + 1 := by push_cast; ring
        omega
      obtain ⟨ph, pi, ps, pe⟩ := ih (redo st) h1
      refine ⟨by rw [ph, hrh], ?_, by rw [ps, hrs], fun _ => ?_⟩
      · rw [pi, hri]
        push_cast
        ring
      · by_cases hm : m = 0
        · subst hm
          show (redo st).elements
              = (jsIndex st.history (st.historyIndex + ((0 + 1 : ℕ) : Int))).getD []
          rw [hre]
          norm_num
        · rw [pe hm, hrh, hri]
          rw [show st.historyIndex + 1 + (m : Int)
              = st.historyIndex + ((m + 1 : ℕ) : Int) from by push_cast; ring]

/-- Claim C1: `undo` then `redo` round-trips.  Locally: on any state
reachable by commit/undo/redo operations whose cursor allows an undo, `undo`
followed by `redo` restores the scene's element list, the history and the
cursor by value, with only the transient selection not restored (it is left
cleared).  Globally: after committing any sequence of `N` scenes, `undo`
`N` times then `redo` `N` times restores the final scene's element list by
value. -/
theorem claim_C1 {α : Type} :
    (∀ ops : List (UserOp α), 0 ≤ (runOps ops).historyIndex →
      (redo (undo (runOps ops))).elements = (runOps ops).elements ∧
      (redo (undo (runOps ops))).history = (runOps ops).history ∧
      (redo (undo (runOps ops))).historyIndex = (runOps ops).historyIndex ∧
      (redo (undo (runOps ops))).selectedId = none) ∧
    (∀ scenes : List (List (Element α)),
      (redo^[scenes.length] (undo^[scenes.length]
        (runOps (scenes.map UserOp.commit)))).elements
          = (runOps (scenes.map UserOp.commit)).elements) := by
  constructor
  · exact fun ops hge => undo_redo_roundtrip (runOps ops) (stateOK_runOps ops) hge
  · intro scenes
    by_cases hsc : scenes = []
    · subst hsc
      rfl
    · have hrun : runOps (scenes.map UserOp.commit)
          = (scenes.map UserOp.commit).foldl applyOp initState := rfl
      obtain ⟨ch, ci, ce⟩ := commits_foldl scenes initState
        (by norm_num [initState]) (by norm_num [initState])
      have ch' : (runOps (scenes.map UserOp.commit)).history = scenes := by
        rw [hrun, ch]
        simp [initState]
      have ci' : (runOps (scenes.map UserOp.commit)).historyIndex
          = (scenes.length : Int) - 1 := by
        rw [hrun, ci]
        simp [initState]
      have ce' : (runOps (scenes.map UserOp.commit)).elements
          = scenes.getLastD [] := by
        rw [hrun, ce]
        simp [initState]
      have hn : scenes.length ≠ 0 := fun hc => hsc (List.length_eq_zero.mp hc)
      obtain ⟨uh, ui, ue⟩ := undo_iter scenes.length
        (runOps (scenes.map UserOp.commit)) (by rw [ci'])
      obtain ⟨rh, ri, rs, re⟩ := redo_iter scenes.length
        (undo^[scenes.length] (runOps (scenes.map UserOp.commit)))
        (by rw [ui, uh, ch']; omega)
      rw [re hn, uh, ui, ch', ce']
      rw [show (-1 : Int) + (scenes.length : Int)
          = (scenes.length : Int) - 1 from by ring]
      exact jsIndex_last scenes [] hsc

/-- The moving branch of `handleMouseMove` applied to one element: the
selected element's origin becomes pointer minus drag offset and its path
points are translated by the resulting deltas `dx`/`dy`; other elements are
returned unchanged. -/
def movingUpdate (sid : String) (off coords : Point α) (el : Element α) :
    Element α :=
  if el.id = sid then
    let dx := coords.x - off.x - el.x
    let dy := coords.y - off.y - el.y
    { el with x := coords.x - off.x, y := coords.y - off.y,
              points := el.points.map (List.map fun p =>
                { x := p.x + dx, y := p.y + dy }) }
  else el

/-- The moving branch of `handleMouseMove` over the whole scene:
`elements.map (...)`. -/
def moveSelected (elements : List (Element α)) (sid : String)
    (off coords : Point α) : List (Element α) :=
  elements.map (movingUpdate sid off coords)

/-- The element literal `handleMouseDown` creates for a drawing tool: seeded
at the pointer with the current style, and — whatever the tool — with a
one-point `points` path `[{x, y}]`; `width`, `height` and `radius` absent. -/
def newElementAt (i : String) (tool : Tool) (x y : α) (c : String) (lw : α) :
    Element α :=
  { id := i, type := tool, x := x, y := y, color := c, lineWidth := lw,
    points := some [{ x := x, y := y }] }

/-- The drawing branch of `handleMouseMove`: pen/eraser append the pointer
to the path, rectangle/line set `width`/`height` from the origin, circle
sets `radius` to the distance from the origin (`Math.sqrt` is the opaque
parameter `s`); other tools leave the element unchanged. -/
def drawingUpdate (s : α → α) (tool : Tool) (cur : Element α) (x y : α) :
    Element α :=
  if tool = Tool.pen ∨ tool = Tool.eraser then
    { cur with points := some (cur.points.getD [] ++ [{ x := x, y := y }]) }
  else if tool = Tool.rectangle ∨ tool = Tool.line then
    { cur with width := some (x - cur.x), height := some (y - cur.y) }
  else if tool = Tool.circle then
    { cur with radius := some (s (distSq x y cur.x cur.y)) }
  else cur

/-- Repeated drawing moves folded over an in-progress element.  Each
`handleMouseMove` dispatches on the *live* `tool` state, which the
window-level `handleKeyDown` can switch between moves (even mid-drag), so
every move carries its own tool: a move is a `(tool, pointer)` pair. -/
def drawnFold (s : α → α) (moves : List (Tool × Point α))
    (cur : Element α) : Element α :=
  moves.foldl (fun cur m => drawingUpdate s m.1 cur m.2.x m.2.y) cur

/-- An element as committed after a pointer-down at `(x, y)` with tool
`tool0` followed by any sequence of drawing moves, each performed under
whatever tool is live at that move. -/
def drawnElement (s : α → α) (i : String) (tool0 : Tool) (x y : α)
    (c : String) (lw : α) (moves : List (Tool × Point α)) : Element α :=
  drawnFold s moves (newElementAt i tool0 x y c lw)

/-- One drawing move keeps the element's type, keeps the path present, and
introduces `radius` only for the circle tool and `width`/`height` only for
the rectangle/line tools. -/
theorem drawingUpdate_fields (s : α → α) (tool : Tool) (cur : Element α)
    (x y : α) :
    (drawingUpdate s tool cur x y).type = cur.type ∧
    (cur.points.isSome = true →
      (drawingUpdate s tool cur x y).points.isSome = true) ∧
    ((drawingUpdate s tool cur x y).radius.isSome = true →
      tool = Tool.circle ∨ cur.radius.isSome = true) ∧
    ((drawingUpdate s tool cur x y).width.isSome = true ∨
      (drawingUpdate s tool cur x y).height.isSome = true →
      (tool = Tool.rectangle ∨ tool = Tool.line) ∨
      (cur.width.isSome = true ∨ cur.height.isSome = true)) := by
  by_cases h1 : tool = Tool.pen ∨ tool = Tool.eraser
  · have hup : drawingUpdate s tool cur x y
        = { cur with points := some (cur.points.getD []
              ++ [{ x := x, y := y }]) } := by
      simp only [drawingUpdate, if_pos h1]
    rw [hup]
    exact ⟨rfl, fun _ => rfl, fun h => Or.inr h, fun h => Or.inr h⟩
  · by_cases h2 : tool = Tool.rectangle ∨ tool = Tool.line
    · have hup : drawingUpdate s tool cur x y
          = { cur with width := some (x - cur.x),
                       height := some (y - cur.y) } := by
        simp only [drawingUpdate, if_neg h1, if_pos h2]
      rw [hup]
      exact ⟨rfl, fun hp => hp, fun h => Or.inr h, fun _ => Or.inl h2⟩
    · by_cases h3 : tool = Tool.circle
      · have hup : drawingUpdate s tool cur x y
            = { cur with radius := some (s (distSq x y cur.x cur.y)) } := by
          simp only [drawingUpdate, if_neg h1, if_neg h2, if_pos h3]
        rw [hup]
        exact ⟨rfl, fun hp => hp, fun _ => Or.inl h3, fun h => Or.inr h⟩
      · have hup : drawingUpdate s tool cur x y = cur := by
          simp only [drawingUpdate, if_neg h1, if_neg h2, if_neg h3]
        rw [hup]
        exact ⟨rfl, fun hp => hp, fun h => Or.inr h, fun h => Or.inr h⟩

/-- The single-move field facts, folded over any sequence of moves, each
with its own live tool: a `radius` can only come from a move made with the
circle tool, and `width`/`height` only from a move made with the rectangle
or line tool. -/
theorem drawnFold_fields (s : α → α) (moves : List (Tool × Point α)) :
    ∀ cur : Element α, cur.points.isSome = true →
      (drawnFold s moves cur).type = cur.type ∧
      (drawnFold s moves cur).points.isSome = true ∧
      ((drawnFold s moves cur).radius.isSome = true →
        Tool.circle ∈ moves.map Prod.fst ∨ cur.radius.isSome = true) ∧
      ((drawnFold s moves cur).width.isSome = true ∨
        (drawnFold s moves cur).height.isSome = true →
        (Tool.rectangle ∈ moves.map Prod.fst ∨
          Tool.line ∈ moves.map Prod.fst) ∨
        (cur.width.isSome = true ∨ cur.height.isSome = true)) := by
  induction moves with
  | nil =>
      intro cur hp
      exact ⟨rfl, hp, fun h => Or.inr h, fun h => Or.inr h⟩
  | cons m rest ih =>
      intro cur hp
      obtain ⟨st, sp, sr, sw⟩ := drawingUpdate_fields s m.1 cur m.2.x m.2.y
      obtain ⟨ft, fp, fr, fw⟩ := ih (drawingUpdate s m.1 cur m.2.x m.2.y)
        (sp hp)
      have hfold : drawnFold s (m :: rest) cur
          = drawnFold s rest (drawingUpdate s m.1 cur m.2.x m.2.y) := rfl
      rw [hfold]
      refine ⟨ft.trans st, fp, fun h => ?_, fun h => ?_⟩
      · rcases fr h with hmem | hd
        · left
          rw [List.map_cons]
          exact List.mem_cons_of_mem _ hmem
        · rcases sr hd with he | hc
          · left
            rw [List.map_cons, he]
            exact List.mem_cons_self _ _
          · exact Or.inr hc
      · rcases fw h with hmem | hd
        · left
          rcases hmem with h1 | h1
          · left
            rw [List.map_cons]
            exact List.mem_cons_of_mem _ h1
          · right
            rw [List.map_cons]
            exact List.mem_cons_of_mem _ h1
        · rcases sw hd with h2 | hc
          · left
            rcases h2 with he | he
            · left
              rw [List.map_cons, he]
              exact List.mem_cons_self _ _
            · right
              rw [List.map_cons, he]
              exact List.mem_cons_self _ _
          · exact Or.inr hc

/-- Claim C4: while moving a selected element, a pointer move sets the
selected element's origin to pointer minus the recorded drag offset,
translates every path point by exactly the origin's delta, keeps the number
of path points, keeps its identity/type/style and shape fields, and leaves
every non-selected element of the scene unchanged (the scene's length is
also unchanged). -/
theorem claim_C4 {α : Type} [LinearOrderedCommRing α] :
    ∀ (es : List (Element α)) (sid : String) (off c : Point α),
      (moveSelected es sid off c).length = es.length ∧
      (∀ (i : ℕ) (hi : i < es.length)
          (hi2 : i < (moveSelected es sid off c).length),
        (es[i].id ≠ sid → (moveSelected es sid off c)[i] = es[i]) ∧
        (es[i].id = sid →
          (moveSelected es sid off c)[i].x = c.x - off.x ∧
          (moveSelected es sid off c)[i].y = c.y - off.y ∧
          (moveSelected es sid off c)[i].points
            = es[i].points.map (List.map fun p =>
                { x := p.x + ((moveSelected es sid off c)[i].x - es[i].x),
                  y := p.y + ((moveSelected es sid off c)[i].y - es[i].y) }) ∧
          (∀ ps, es[i].points = some ps →
            ∃ qs, (moveSelected es sid off c)[i].points = some qs ∧
              qs.length = ps.length) ∧
          (moveSelected es sid off c)[i].id = es[i].id ∧
          (moveSelected es sid off c)[i].type = es[i].type ∧
          (moveSelected es sid off c)[i].color = es[i].color ∧
          (moveSelected es sid off c)[i].lineWidth = es[i].lineWidth ∧
          (moveSelected es sid off c)[i].width = es[i].width ∧
          (moveSelected es sid off c)[i].height = es[i].height ∧
          (moveSelected es sid off c)[i].radius = es[i].radius)) := by
  intro es sid off c
  refine ⟨by simp [moveSelected], ?_⟩
  intro i hi hi2
  have hmap : (moveSelected es sid off c)[i] = movingUpdate sid off c es[i] := by
    simp [moveSelected]
  rw [hmap]
  constructor
  · intro hne
    simp only [movingUpdate, if_neg hne]
  · intro heq
    have hup : movingUpdate sid off c es[i]
        = { es[i] with x := c.x - off.x, y := c.y - off.y,
                       points := es[i].points.map (List.map fun p =>
                         { x := p.x + (c.x - off.x - es[i].x),
                           y := p.y + (c.y - off.y - es[i].y) }) } := by
      simp only [movingUpdate, if_pos heq]
    rw [hup]
    refine ⟨rfl, rfl, rfl, ?_, rfl, rfl, rfl, rfl, rfl, rfl, rfl⟩
    intro ps hps
    refine ⟨ps.map fun p =>
      { x := p.x + (c.x - off.x - es[i].x),
        y := p.y + (c.y - off.y - es[i].y) }, ?_, by simp⟩
    show es[i].points.map (List.map fun p =>
      ({ x := p.x + (c.x - off.x - es[i].x),
         y := p.y + (c.y - off.y - es[i].y) } : Point α))
      = some (ps.map fun p =>
        ({ x := p.x + (c.x - off.x - es[i].x),
           y := p.y + (c.y - off.y - es[i].y) } : Point α))
    rw [hps]
    rfl

/-- Claim C5: with an element selected and present (and ids unique), the
delete shortcut removes exactly that element from the scene, commits the
result as a new history entry (cursor advanced by one, entries after the old
cursor gone, new scene on top), and clears the selection; with nothing
selected it changes nothing at all. -/
theorem claim_C5 {α : Type} :
    (∀ (st : WBState α) (sid : String) (e : Element α)
        (pre post : List (Element α)),
      st.selectedId = some sid →
      st.elements = pre ++ e :: post →
      e.id = sid →
      (∀ el ∈ pre, el.id ≠ sid) →
      (∀ el ∈ post, el.id ≠ sid) →
      -1 ≤ st.historyIndex →
      st.historyIndex ≤ (st.history.length : Int) - 1 →
      (handleDelete st).elements = pre ++ post ∧
      (handleDelete st).selectedId = none ∧
      (handleDelete st).historyIndex = st.historyIndex + 1 ∧
      ((handleDelete st).history.length : Int) = st.historyIndex + 2 ∧
      jsIndex (handleDelete st).history (handleDelete st).historyIndex
        = some (pre ++ post)) ∧
    (∀ st : WBState α, st.selectedId = none → handleDelete st = st) := by
  constructor
  · intro st sid e pre post hsel helems heid hpre hpost hb0 hb1
    have hpre' : ∀ a ∈ pre, (a.id != sid) = true := fun a ha => by
      simpa using hpre a ha
    have hpost' : ∀ a ∈ post, (a.id != sid) = true := fun a ha => by
      simpa using hpost a ha
    have hfil : (st.elements.filter fun el => el.id != sid) = pre ++ post := by
      rw [helems, List.filter_append, List.filter_cons,
        List.filter_eq_self.mpr hpre', List.filter_eq_self.mpr hpost']
      simp [heid]
    have hd : handleDelete st
        = { saveToHistory { st with elements := pre ++ post } (pre ++ post)
              with selectedId := none } := by
      simp only [handleDelete, hsel, hfil]
    obtain ⟨hh, hl, hi, he, hs, htop, hpre2⟩ :=
      saveToHistory_core { st with elements := pre ++ post } (pre ++ post)
        hb0 hb1
    dsimp only at hh hl hi he htop
    rw [hd]
    refine ⟨by dsimp only; exact he, rfl, by dsimp only; exact hi,
      by dsimp only; exact hl, ?_⟩
    dsimp only
    rw [hi]
    exact htop
  · intro st hsel
    simp only [handleDelete, hsel]

/-- Claim C9 (amended): every element created by pointer-down carries a
`points` path seeded with the press position, whatever its type, and keeps
one through any sequence of drawing moves; its `type` stays the creation
tool; a `radius` appears only if some drawing move ran with the circle tool
live, and `width`/`height` only if some move ran with the rectangle or line
tool live — in particular, when the tool is never switched during the draw,
`radius` appears only on circle elements and `width`/`height` only on
rectangle/line elements; and dragging never adds or removes geometry
fields.  So — against the claim as stated — a rectangle, line or circle
element also carries the freehand `points` field, and since the keyboard
can switch the live tool mid-drag, the exclusivity of `radius` and
`width`/`height` is relative to the moves' tools, not absolute in the
element's type. -/
theorem claim_C9 {α : Type} [LinearOrderedCommRing α] :
    (∀ (s : α → α) (i : String) (tool0 : Tool) (x y : α) (c : String)
        (lw : α) (moves : List (Tool × Point α)),
      (drawnElement s i tool0 x y c lw moves).type = tool0 ∧
      (drawnElement s i tool0 x y c lw moves).points.isSome = true ∧
      ((drawnElement s i tool0 x y c lw moves).radius.isSome = true →
        Tool.circle ∈ moves.map Prod.fst) ∧
      ((drawnElement s i tool0 x y c lw moves).width.isSome = true ∨
        (drawnElement s i tool0 x y c lw moves).height.isSome = true →
        Tool.rectangle ∈ moves.map Prod.fst ∨
          Tool.line ∈ moves.map Prod.fst) ∧
      ((∀ t ∈ moves.map Prod.fst, t = tool0) →
        ((drawnElement s i tool0 x y c lw moves).radius.isSome = true →
          tool0 = Tool.circle) ∧
        ((drawnElement s i tool0 x y c lw moves).width.isSome = true ∨
          (drawnElement s i tool0 x y c lw moves).height.isSome = true →
          tool0 = Tool.rectangle ∨ tool0 = Tool.line))) ∧
    (∀ (sid : String) (off c : Point α) (el : Element α),
      (movingUpdate sid off c el).points.isSome = el.points.isSome ∧
      (movingUpdate sid off c el).width = el.width ∧
      (movingUpdate sid off c el).height = el.height ∧
      (movingUpdate sid off c el).radius = el.radius) := by
  constructor
  · intro s i tool0 x y c lw moves
    obtain ⟨ft, fp, fr, fw⟩ := drawnFold_fields s moves
      (newElementAt i tool0 x y c lw) rfl
    have hr : (drawnElement s i tool0 x y c lw moves).radius.isSome = true →
        Tool.circle ∈ moves.map Prod.fst :=
      fun h => (fr h).resolve_right (by simp [newElementAt])
    have hw : (drawnElement s i tool0 x y c lw moves).width.isSome = true ∨
        (drawnElement s i tool0 x y c lw moves).height.isSome = true →
        Tool.rectangle ∈ moves.map Prod.fst ∨
          Tool.line ∈ moves.map Prod.fst :=
      fun h => (fw h).resolve_right (by simp [newElementAt])
    refine ⟨ft.trans rfl, fp, hr, hw, fun hall => ⟨fun h => ?_, fun h => ?_⟩⟩
    · exact (hall _ (hr h)).symm
    · rcases hw h with hm | hm
      · exact Or.inl (hall _ hm).symm
      · exact Or.inr (hall _ hm).symm
  · intro sid off c el
    by_cases hid : el.id = sid
    · have hup : movingUpdate sid off c el
          = { el with x := c.x - off.x, y := c.y - off.y,
                      points := el.points.map (List.map fun p =>
                        { x := p.x + (c.x - off.x - el.x),
                          y := p.y + (c.y - off.y - el.y) }) } := by
        simp only [movingUpdate, if_pos hid]
      rw [hup]
      refine ⟨?_, rfl, rfl, rfl⟩
      simp
    · have hup : movingUpdate sid off c el = el := by
        simp only [movingUpdate, if_neg hid]
      rw [hup]
      exact ⟨rfl, rfl, rfl, rfl⟩

/-- A fixed id for the counterexample element. -/
def sampleId : String := "e1"

/-- A fixed color for the counterexample element. -/
def sampleColor : String := "blue"

/-- The rectangle committed by a pointer-down at `(0,0)` followed by one
drawing move to `(3,4)` (the square-root parameter is irrelevant here). -/
def rectDrawn : Element ℤ :=
  drawingUpdate (fun q => q) Tool.rectangle
    (newElementAt sampleId Tool.rectangle 0 0 sampleColor 1) 3 4

/-- Counterexample to C9 as stated: this committed rectangle carries, next
to its `width`/`height`, a `points` path (the seeded pointer-down position),
i.e. a geometry field the claim reserves for pen/eraser elements. -/
theorem claim_C9_cex :
    rectDrawn.type = Tool.rectangle ∧
    rectDrawn.width = some 3 ∧ rectDrawn.height = some 4 ∧
    rectDrawn.points = some [{ x := 0, y := 0 }] := by decide

/-- A mid-drag tool switch mixes geometry across types: pointer-down with
the rectangle tool, a keyboard switch to the circle tool, then one drawing
move, yields a rectangle-typed element carrying a `radius` — which is why
the exclusivity of the geometry fields can only be stated relative to the
tools live at the drawing moves. -/
theorem toolSwitch_mixes_fields :
    (drawnElement (fun q : ℤ => q) sampleId Tool.rectangle 0 0 sampleColor 1
      [(Tool.circle, { x := 3, y := 4 })]).type = Tool.rectangle ∧
    (drawnElement (fun q : ℤ => q) sampleId Tool.rectangle 0 0 sampleColor 1
      [(Tool.circle, { x := 3, y := 4 })]).radius.isSome = true := by decide

end Whiteboard
